import Mathlib

/-!
Verification of the FB2SCI conversion utility (src/FB2SCI.cpp).

The program converts two FB-01 sysex bank files into Sierra's SCI0
IMF/FB-01 patch resource format.  Bytes are modelled as `Nat` values in
0..255; a file or buffer is a `List Nat`.  The pure stages of the C++
pipeline (`main`'s validation sequence, `read_files`, `reorganize_data`,
`write_to_file`) are embedded as Lean functions below; the I/O
collaborators (file existence checks, the interactive overwrite prompt,
stream handling) are outside the embedding.
-/

namespace FB2SCI

/-- Expected 7-byte signature of a bank A file
(`"\xF0\x43\x75\x00\x00\x00\x00"`, FB2SCI.cpp line 61). -/
def bankASig : List Nat := [0xF0, 0x43, 0x75, 0x00, 0x00, 0x00, 0x00]

/-- Expected 7-byte signature of a bank B file
(`"\xF0\x43\x75\x00\x00\x00\x01"`, FB2SCI.cpp line 90). -/
def bankBSig : List Nat := [0xF0, 0x43, 0x75, 0x00, 0x00, 0x00, 0x01]

/-- One 128-byte instrument packet window: the bytes of `file` at
positions `0x4C + 131*k .. 0x4C + 131*k + 127` (the `seekg`/`read` pair
in `read_files`, FB2SCI.cpp lines 138-143).  A position beyond the end of
the file yields the default byte 0 (in the C++ source such a read would
leave indeterminate stack-buffer contents; it never happens on validated
input, as proved below). -/
def packetWindow (file : List Nat) (k : Nat) : List Nat :=
  (List.range 128).map (fun j => file.getD (0x4C + 131 * k + j) 0)

/-- The extractor, `read_files` applied to a single bank file: the loop at
FB2SCI.cpp lines 136-150 appends 48 consecutive 128-byte windows, starting
at offset 0x4C and advancing the read position by 131 per packet. -/
def read_file (file : List Nat) : List Nat :=
  (List.range 48).flatMap (packetWindow file)

/-- The nibble merge computed for one byte pair at FB2SCI.cpp line 184:
`((low_byte & 0x0F) << 4) | (high_byte & 0x0F)`. -/
def mergeByte (hb lb : Nat) : Nat :=
  ((lb &&& 0x0F) <<< 4) ||| (hb &&& 0x0F)

/-- The in-place transcoding loop of `reorganize_data`
(FB2SCI.cpp lines 175-192) acting on one buffer: for `i = 0, 2, 4, ...`
while `i < size`, read bytes `i` and `i+1`, store their merge at `i/2`
and a zero byte at `i/2 + 1`.  Out-of-range reads return the default 0
and out-of-range writes are dropped (`List.set` is the identity there);
the loop only performs in-range accesses on even-length buffers, as
proved below. -/
def denibLoop (d : List Nat) (i : Nat) : List Nat :=
  if i < d.length then
    let high_byte := d.getD i 0
    let low_byte := d.getD (i + 1) 0
    let merged_byte := mergeByte high_byte low_byte
    denibLoop ((d.set (i / 2) merged_byte).set (i / 2 + 1) 0) (i + 2)
  else d
termination_by d.length - i
decreasing_by simp only [List.length_set]; omega

/-- One buffer's worth of `reorganize_data`: run the in-place loop from
index 0, then truncate to half the length (the `resize(size / 2)` calls
at FB2SCI.cpp lines 195-196). -/
def denibble (d : List Nat) : List Nat :=
  (denibLoop d 0).take (d.length / 2)

/-- Diagnostics printed by `reorganize_data`: the fatal-looking (but in
fact non-aborting) size-mismatch message at lines 156-158, and the
non-fatal unexpected-size message at lines 163-164. -/
inductive Diag where
  | lengthMismatch
  | unexpectedLength
deriving DecidableEq, Repr

/-- `reorganize_data` (FB2SCI.cpp lines 153-197) on the pair of extracted
buffers.  Returns the resulting pair of buffers together with the list of
diagnostics printed.  On a size mismatch the C++ function prints an error
and `return`s without touching either vector; on size ≠ 6144 it prints a
message and still performs the transform; otherwise it transforms
silently. -/
def reorganize_data (d1 d2 : List Nat) : (List Nat × List Nat) × List Diag :=
  if d1.length ≠ d2.length then
    ((d1, d2), [Diag.lengthMismatch])
  else if d1.length ≠ 6144 then
    ((denibble d1, denibble d2), [Diag.unexpectedLength])
  else
    ((denibble d1, denibble d2), [])

/-- `write_to_file` (FB2SCI.cpp lines 199-222): the bytes written to the
output file, in order: the 2-byte SCI patch header `89 00`, buffer 1, the
2-byte bank separator `AB CD`, buffer 2. -/
def write_to_file (data1 data2 : List Nat) : List Nat :=
  [0x89, 0x00] ++ data1 ++ [0xAB, 0xCD] ++ data2

/-- The tail of `main` after the input files have been read
(FB2SCI.cpp lines 118-125): reorganize both buffers, write the output
file, and return exit code 0.  The diagnostics of `reorganize_data` are
printed but never inspected, so the exit code is 0 regardless.  Result:
(exit code, bytes written to the output file). -/
def mainTail (d1 d2 : List Nat) : Nat × List Nat :=
  let r := reorganize_data d1 d2
  (0, write_to_file r.1.1 r.1.2)

/-- The fatal validation failures of `main` (each followed by
`exit(EXIT_FAILURE)` in the source).  `invalidLength` carries the actual
file length, which the source prints (`"Actual size: " << length`). -/
inductive RunError where
  | invalidSignature1
  | invalidLength1 (actual : Nat)
  | invalidSignature2
  | invalidLength2 (actual : Nat)
deriving DecidableEq, Repr

/-- The validation-and-conversion pipeline of `main`
(FB2SCI.cpp lines 56-125), with the two input files given as byte lists:
check bank A's 7-byte signature, then its 6363-byte length, then bank B's
signature, then its length, in that order, failing fatally (with nothing
written) at the first mismatch; then extract, reorganize, and write.  On
success the result carries the bytes written to the output file. -/
def runProgram (file1 file2 : List Nat) : Except RunError (List Nat) :=
  if file1.take 7 ≠ bankASig then .error .invalidSignature1
  else if file1.length ≠ 6363 then .error (.invalidLength1 file1.length)
  else if file2.take 7 ≠ bankBSig then .error .invalidSignature2
  else if file2.length ≠ 6363 then .error (.invalidLength2 file2.length)
  else .ok (mainTail (read_file file1) (read_file file2)).2

/-- The bytes that reach the output file in a run of `main`: none when a
fatal validation error aborts the run before `write_to_file`. -/
def programOutput (file1 file2 : List Nat) : List Nat :=
  match runProgram file1 file2 with
  | .ok out => out
  | .error _ => []

/-- Modelled from the spec: the Transcoder's contract described as a pure
function ("final truncated buffer contains only the merged bytes, one per
original pair, in original pair order").  Each adjacent byte pair
(high_byte, low_byte) becomes the single byte
`((low_byte & 0x0F) << 4) | (high_byte & 0x0F)`.  This is the
comparison point for the refinement claim about the in-place loop. -/
def denibPure : List Nat → List Nat
  | hb :: lb :: rest => mergeByte hb lb :: denibPure rest
  | _ => []

/-- The transcoding loop of `reorganize_data` instrumented with explicit
bounds checks: identical to `denibLoop`, but returns `none` if any of the
four accessed indices (reads at `i`, `i+1`; writes at `i/2`, `i/2+1`)
is not strictly below the buffer length.  Used to state the in-bounds
safety claim. -/
def denibLoopChecked (d : List Nat) (i : Nat) : Option (List Nat) :=
  if i < d.length then
    if i + 1 < d.length ∧ i / 2 < d.length ∧ i / 2 + 1 < d.length then
      let high_byte := d.getD i 0
      let low_byte := d.getD (i + 1) 0
      let merged_byte := mergeByte high_byte low_byte
      denibLoopChecked ((d.set (i / 2) merged_byte).set (i / 2 + 1) 0) (i + 2)
    else none
  else some d
termination_by d.length - i
decreasing_by simp only [List.length_set]; omega

/-! ## Basic length facts and unfolding lemmas -/

theorem length_packetWindow (file : List Nat) (k : Nat) :
    (packetWindow file k).length = 128 := by
  simp [packetWindow]

theorem length_read_file (file : List Nat) : (read_file file).length = 6144 := by
  simp [read_file, packetWindow, List.length_flatMap, Function.comp_def,
    List.map_const', List.sum_replicate]

/-- Unfolding lemma for one iteration of the in-place loop. -/
theorem denibLoop_step {d : List Nat} {i : Nat} (h : i < d.length) :
    denibLoop d i =
      denibLoop ((d.set (i / 2) (mergeByte (d.getD i 0) (d.getD (i + 1) 0))).set (i / 2 + 1) 0)
        (i + 2) := by
  rw [denibLoop, if_pos h]

/-- Unfolding lemma for loop exit. -/
theorem denibLoop_stop {d : List Nat} {i : Nat} (h : ¬ i < d.length) :
    denibLoop d i = d := by
  rw [denibLoop, if_neg h]

theorem length_denibLoop (d : List Nat) (i : Nat) :
    (denibLoop d i).length = d.length := by
  rw [denibLoop]
  split
  · rw [length_denibLoop]
    simp
  · rfl
termination_by d.length - i
decreasing_by simp only [List.length_set]; omega

theorem length_denibble (d : List Nat) : (denibble d).length = d.length / 2 := by
  simp [denibble, length_denibLoop]
  omega

theorem denibPure_nil : denibPure [] = [] := rfl

theorem denibPure_singleton (a : Nat) : denibPure [a] = [] := rfl

theorem denibPure_cons (a b : Nat) (l : List Nat) :
    denibPure (a :: b :: l) = mergeByte a b :: denibPure l := rfl

theorem length_denibPure : ∀ l : List Nat, (denibPure l).length = l.length / 2
  | [] => rfl
  | [_] => by simp [denibPure_singleton]
  | _ :: _ :: rest => by
    rw [denibPure_cons]
    simp only [List.length_cons, length_denibPure rest]
    omega

/-! ## The in-place loop computes the pure per-pair transform -/

theorem getD_denibPure : ∀ (l : List Nat) (k : Nat), 2 * k + 1 < l.length →
    (denibPure l).getD k 0 = mergeByte (l.getD (2 * k) 0) (l.getD (2 * k + 1) 0)
  | [], _, h => by simp at h
  | [_], _, h => by simp at h
  | a :: b :: rest, 0, _ => by simp [denibPure_cons]
  | a :: b :: rest, k + 1, h => by
    have h2 : 2 * k + 1 < rest.length := by simp at h; omega
    have hx : 2 * (k + 1) = 2 * k + 1 + 1 := by omega
    have hy : 2 * (k + 1) + 1 = 2 * k + 1 + 1 + 1 := by omega
    rw [denibPure_cons, hy, hx]
    simp only [List.getD_cons_succ]
    exact getD_denibPure rest k h2

/-- The heart of the refinement: starting the in-place loop at index `i`,
the first `i/2 + t.length/2` bytes of the final buffer are the untouched
prefix `d.take (i/2)` followed by the pure transform of the unread
suffix `t = d.drop i`.  The zero bytes written at `i/2 + 1` are each
overwritten by the next iteration's merged byte, or fall beyond the
retained prefix. -/
theorem denibLoop_take : ∀ (t d : List Nat) (i : Nat), Even t.length →
    d.drop i = t → i ≤ d.length →
    (denibLoop d i).take (i / 2 + t.length / 2) = d.take (i / 2) ++ denibPure t
  | [], d, i, _, hdrop, hle => by
    have h2 := congrArg List.length hdrop
    simp only [List.length_drop, List.length_nil] at h2
    rw [denibLoop_stop (by omega)]
    simp [denibPure_nil]
  | [_], _, _, hev, _, _ => by simp at hev
  | a :: b :: t2, d, i, hev, hdrop, hle => by
    have hlen : d.length = i + (t2.length + 2) := by
      have h2 := congrArg List.length hdrop
      simp only [List.length_drop, List.length_cons] at h2
      omega
    have hilt : i < d.length := by omega
    have hread1 : d.getD i 0 = a := by
      have h := List.getElem?_drop d i 0
      rw [hdrop] at h
      simp only [List.getD_eq_getElem?_getD]
      rw [show d[i]? = d[i + 0]? by rw [Nat.add_zero], ← h]
      simp
    have hread2 : d.getD (i + 1) 0 = b := by
      have h := List.getElem?_drop d i 1
      rw [hdrop] at h
      simp only [List.getD_eq_getElem?_getD]
      rw [← h]
      simp
    rw [denibLoop_step hilt, hread1, hread2]
    have hdrop1 :
        ((d.set (i / 2) (mergeByte a b)).set (i / 2 + 1) 0).drop (i + 2) = t2 := by
      have e1 : ((d.set (i / 2) (mergeByte a b)).set (i / 2 + 1) 0).drop (i + 2)
          = d.drop (i + 2) := by
        rw [List.drop_set_of_lt _ _ (by omega), List.drop_set_of_lt _ _ (by omega)]
      have e2 : d.drop (i + 2) = (d.drop i).drop 2 := (List.drop_drop 2 i d).symm
      rw [e1, e2, hdrop]
      rfl
    have hev2 : Even t2.length := by
      rcases hev with ⟨w, hw⟩
      simp only [List.length_cons] at hw
      exact ⟨w - 1, by omega⟩
    have hIH := denibLoop_take t2 _ (i + 2) hev2 hdrop1
      (by simp only [List.length_set]; omega)
    have hc : i / 2 + (a :: b :: t2).length / 2 = (i + 2) / 2 + t2.length / 2 := by
      simp only [List.length_cons]
      omega
    have htake1 :
        ((d.set (i / 2) (mergeByte a b)).set (i / 2 + 1) 0).take (i / 2 + 1) =
          d.take (i / 2) ++ [mergeByte a b] := by
      rw [List.set_take, List.set_eq_of_length_le (by simp), List.set_take,
        List.set_eq_take_append_cons_drop, if_pos (by simp; omega), List.take_take]
      have h1 : min (i / 2) (i / 2 + 1) = i / 2 := by omega
      have h2 : (d.take (i / 2 + 1)).drop (i / 2 + 1) = [] :=
        List.drop_eq_nil_of_le (by simp)
      rw [h1, h2]
    have hsplit : (i + 2) / 2 = i / 2 + 1 := by omega
    rw [hc, hIH, hsplit, htake1, denibPure_cons]
    simp

theorem denibble_eq_denibPure (d : List Nat) (h : Even d.length) :
    denibble d = denibPure d := by
  have hmain := denibLoop_take d d 0 h rfl (by omega)
  simpa [denibble] using hmain

/-- When the two buffers have equal lengths, `reorganize_data` transforms
both (whether or not the length is 6144). -/
theorem reorganize_fst {d1 d2 : List Nat} (h : d1.length = d2.length) :
    (reorganize_data d1 d2).1 = (denibble d1, denibble d2) := by
  simp only [reorganize_data, h]
  split
  · omega
  · split <;> rfl

/-! ## In-bounds safety of the in-place loop -/

/-- On an even-length buffer, every access of the in-place loop is in
bounds: the instrumented loop never takes its `none` branch and agrees
with the uninstrumented one. -/
theorem denibLoopChecked_eq (d : List Nat) (i : Nat) (hd : Even d.length)
    (hi : Even i) : denibLoopChecked d i = some (denibLoop d i) := by
  by_cases h : i < d.length
  · have hb : i + 1 < d.length ∧ i / 2 < d.length ∧ i / 2 + 1 < d.length := by
      rcases hd with ⟨w, hw⟩
      rcases hi with ⟨v, hv⟩
      omega
    rw [denibLoopChecked, if_pos h, if_pos hb, denibLoop_step h]
    exact denibLoopChecked_eq _ (i + 2)
      (by simpa only [List.length_set] using hd)
      (by rcases hi with ⟨v, hv⟩; exact ⟨v + 1, by omega⟩)
  · rw [denibLoopChecked, if_neg h, denibLoop_stop h]
termination_by d.length - i
decreasing_by simp only [List.length_set]; omega

/-! ## Pipeline helpers -/

theorem mainTail_eq {d1 d2 : List Nat} (h : d1.length = d2.length) :
    mainTail d1 d2 = (0, write_to_file (denibble d1) (denibble d2)) := by
  have hf := reorganize_fst h
  simp only [mainTail, hf]

theorem runProgram_ok {f1 f2 : List Nat} (hs1 : f1.take 7 = bankASig)
    (hl1 : f1.length = 6363) (hs2 : f2.take 7 = bankBSig) (hl2 : f2.length = 6363) :
    runProgram f1 f2 =
      .ok (write_to_file (denibble (read_file f1)) (denibble (read_file f2))) := by
  have hm := @mainTail_eq (read_file f1) (read_file f2)
    (by rw [length_read_file, length_read_file])
  simp [runProgram, hs1, hl1, hs2, hl2, hm]

/-! ## Indexing the extractor's output -/

/-- Indexing into a `flatMap` whose pieces all have length `p`. -/
theorem getD_flatMap_uniform (f : Nat → List Nat) (p : Nat)
    (hp : ∀ k, (f k).length = p) :
    ∀ (ks : List Nat) (k j : Nat), k < ks.length → j < p →
      ((ks.flatMap f).getD (p * k + j) 0 = (f (ks.getD k 0)).getD j 0)
  | [], k, j, hk, hj => by simp at hk
  | a :: ks, 0, j, hk, hj => by
    simp only [List.flatMap_cons, Nat.mul_zero, Nat.zero_add, List.getD_cons_zero]
    rw [List.getD_eq_getElem?_getD, List.getElem?_append_left (by rw [hp]; exact hj),
      ← List.getD_eq_getElem?_getD]
  | a :: ks, k + 1, j, hk, hj => by
    simp only [List.flatMap_cons, List.getD_cons_succ]
    rw [List.getD_eq_getElem?_getD,
      List.getElem?_append_right (by rw [hp]; exact Nat.le_trans (by nlinarith) (Nat.le_add_right _ j)),
      ← List.getD_eq_getElem?_getD]
    have harith : p * (k + 1) + j - (f a).length = p * k + j := by
      rw [hp]
      have : p * (k + 1) = p * k + p := by ring
      omega
    rw [harith]
    exact getD_flatMap_uniform f p hp ks k j (by simpa using hk) hj

theorem getD_packetWindow (file : List Nat) (k j : Nat) (hj : j < 128) :
    (packetWindow file k).getD j 0 = file.getD (0x4C + 131 * k + j) 0 := by
  rw [packetWindow, List.getD_eq_getElem?_getD, List.getElem?_map,
    List.getElem?_range hj]
  rfl

/-- Byte `128*k + j` of the extracted sequence is byte `0x4C + 131*k + j`
of the input file. -/
theorem getD_read_file (file : List Nat) (k j : Nat) (hk : k < 48) (hj : j < 128) :
    (read_file file).getD (128 * k + j) 0 = file.getD (0x4C + 131 * k + j) 0 := by
  rw [read_file,
    getD_flatMap_uniform (packetWindow file) 128 (length_packetWindow file)
      (List.range 48) k j (by simpa using hk) hj,
    getD_packetWindow _ _ _ hj]
  congr 2
  rw [List.getD_eq_getElem?_getD, List.getElem?_range hk]
  rfl

/-! ## Layout of the emitted file -/

theorem write_to_file_cons (A B : List Nat) :
    write_to_file A B = 0x89 :: 0x00 :: (A ++ (0xAB :: 0xCD :: B)) := by
  simp [write_to_file]

theorem length_write_to_file {A B : List Nat} (hA : A.length = 3072)
    (hB : B.length = 3072) : (write_to_file A B).length = 6148 := by
  simp [write_to_file, hA, hB]

theorem write_sep1 {A B : List Nat} (hA : A.length = 3072) :
    (write_to_file A B).getD 0xC02 0 = 0xAB := by
  rw [write_to_file_cons, List.getD_eq_getElem?_getD,
    show (0xC02 : Nat) = 3072 + 2 by norm_num,
    List.getElem?_cons_succ, List.getElem?_cons_succ, ← hA,
    List.getElem?_append_right (Nat.le_refl _), Nat.sub_self]
  rfl

theorem write_sep2 {A B : List Nat} (hA : A.length = 3072) :
    (write_to_file A B).getD 0xC03 0 = 0xCD := by
  rw [write_to_file_cons, List.getD_eq_getElem?_getD,
    show (0xC03 : Nat) = 3073 + 2 by norm_num,
    List.getElem?_cons_succ, List.getElem?_cons_succ,
    show (3073 : Nat) = A.length + 1 by omega,
    List.getElem?_append_right (Nat.le_add_right _ _), Nat.add_sub_cancel_left]
  simp

theorem write_bankA {A B : List Nat} (hA : A.length = 3072) :
    ((write_to_file A B).drop 2).take 3072 = A := by
  rw [write_to_file_cons, List.drop_succ_cons, List.drop_succ_cons, List.drop_zero,
    List.take_append_of_le_length (by omega), ← hA, List.take_length]

theorem write_bankB {A B : List Nat} (hA : A.length = 3072) :
    (write_to_file A B).drop 0xC04 = B := by
  rw [write_to_file_cons,
    show (0xC04 : Nat) = (3072 + 2) + 2 by norm_num,
    List.drop_succ_cons, List.drop_succ_cons, ← hA,
    List.drop_append, List.drop_succ_cons, List.drop_succ_cons, List.drop_zero]

/-! ## Validation error paths of main -/

theorem getD_take_lt (l : List Nat) (n j : Nat) (h : j < n) :
    (l.take n).getD j 0 = l.getD j 0 := by
  rw [List.getD_eq_getElem?_getD, List.getD_eq_getElem?_getD, List.getElem?_take_of_lt h]

theorem take7_ne {f sig : List Nat} {j : Nat} (hj : j < 7)
    (hne : f.getD j 0 ≠ sig.getD j 0) : f.take 7 ≠ sig := by
  intro heq
  exact hne (by rw [← heq, getD_take_lt f 7 j hj])

theorem runProgram_sigA_error {f1 f2 : List Nat} (h : f1.take 7 ≠ bankASig) :
    runProgram f1 f2 = .error RunError.invalidSignature1 := by
  simp only [runProgram]
  rw [if_pos h]

theorem runProgram_lenA_error {f1 f2 : List Nat} (hs : f1.take 7 = bankASig)
    (h : f1.length ≠ 6363) :
    runProgram f1 f2 = .error (RunError.invalidLength1 f1.length) := by
  simp only [runProgram]
  rw [if_neg (fun hn => hn hs), if_pos h]

theorem runProgram_sigB_error {f1 f2 : List Nat} (hs1 : f1.take 7 = bankASig)
    (hl1 : f1.length = 6363) (h : f2.take 7 ≠ bankBSig) :
    runProgram f1 f2 = .error RunError.invalidSignature2 := by
  simp only [runProgram]
  rw [if_neg (fun hn => hn hs1), if_neg (fun hn => hn hl1), if_pos h]

theorem runProgram_lenB_error {f1 f2 : List Nat} (hs1 : f1.take 7 = bankASig)
    (hl1 : f1.length = 6363) (hs2 : f2.take 7 = bankBSig) (h : f2.length ≠ 6363) :
    runProgram f1 f2 = .error (RunError.invalidLength2 f2.length) := by
  simp only [runProgram]
  rw [if_neg (fun hn => hn hs1), if_neg (fun hn => hn hl1), if_neg (fun hn => hn hs2),
    if_pos h]

theorem programOutput_error {f1 f2 : List Nat} {e : RunError}
    (h : runProgram f1 f2 = .error e) : programOutput f1 f2 = [] := by
  simp [programOutput, h]

/-! ## The claims -/

/-- C1: for every pair of equal-length extracted bank buffers (of even
length) and every even index `i` below the length, the transcoder's
output byte at position `i/2` is
`((buffer[i+1] & 0x0F) << 4) | (buffer[i] & 0x0F)` — the low nibble of
the second byte of the pair becomes the high nibble and the low nibble of
the first byte becomes the low nibble — in both buffers; and for the
adjacent pair `0x3F, 0xA2` the merged byte is `0x2F`. -/
theorem claim_C1 :
    (∀ (d1 d2 : List Nat) (i : Nat), d1.length = d2.length → Even d1.length →
      Even i → i < d1.length →
      (reorganize_data d1 d2).1.1.getD (i / 2) 0 =
          ((d1.getD (i + 1) 0 &&& 0x0F) <<< 4) ||| (d1.getD i 0 &&& 0x0F) ∧
        (reorganize_data d1 d2).1.2.getD (i / 2) 0 =
          ((d2.getD (i + 1) 0 &&& 0x0F) <<< 4) ||| (d2.getD i 0 &&& 0x0F)) ∧
    denibble [0x3F, 0xA2] = [0x2F] := by
  constructor
  · intro d1 d2 i hlen hev hevi hi
    have hfst := reorganize_fst hlen
    have he2 : Even d2.length := hlen ▸ hev
    have h2i : 2 * (i / 2) = i := by
      rcases hevi with ⟨v, hv⟩
      omega
    have hb1 : 2 * (i / 2) + 1 < d1.length := by
      rcases hev with ⟨w, hw⟩
      omega
    have hb2 : 2 * (i / 2) + 1 < d2.length := by omega
    have e1 : (reorganize_data d1 d2).1.1 = denibble d1 := by rw [hfst]
    have e2 : (reorganize_data d1 d2).1.2 = denibble d2 := by rw [hfst]
    constructor
    · rw [e1, denibble_eq_denibPure d1 hev, getD_denibPure d1 (i / 2) hb1, h2i]
      rfl
    · rw [e2, denibble_eq_denibPure d2 he2, getD_denibPure d2 (i / 2) hb2, h2i]
      rfl
  · rw [denibble_eq_denibPure [0x3F, 0xA2] (by decide)]
    decide

theorem claim_C1_witness :
    (reorganize_data [0x3F, 0xA2] [0x3F, 0xA2]).1.1.getD 0 0 =
        ((([0x3F, 0xA2] : List Nat).getD 1 0 &&& 0x0F) <<< 4) |||
          (([0x3F, 0xA2] : List Nat).getD 0 0 &&& 0x0F) ∧
      (reorganize_data [0x3F, 0xA2] [0x3F, 0xA2]).1.2.getD 0 0 =
        ((([0x3F, 0xA2] : List Nat).getD 1 0 &&& 0x0F) <<< 4) |||
          (([0x3F, 0xA2] : List Nat).getD 0 0 &&& 0x0F) :=
  claim_C1.1 [0x3F, 0xA2] [0x3F, 0xA2] 0 rfl (by decide) (by decide) (by decide)

/-- C2: for every pair of valid 6363-byte inputs with correct signatures,
the run succeeds and emits exactly 6148 bytes: bytes 0-1 are `89 00`,
bytes 2..0xC01 are the 3072-byte transcoded bank A, bytes 0xC02-0xC03 are
`AB CD`, and bytes 0xC04..0x1803 are the 3072-byte transcoded bank B;
the tag and separator are fixed constants, independent of input data. -/
theorem claim_C2 : ∀ f1 f2 : List Nat, f1.take 7 = bankASig → f1.length = 6363 →
    f2.take 7 = bankBSig → f2.length = 6363 →
    runProgram f1 f2 =
        .ok (write_to_file (denibble (read_file f1)) (denibble (read_file f2))) ∧
      (programOutput f1 f2).length = 6148 ∧
      (denibble (read_file f1)).length = 3072 ∧
      (denibble (read_file f2)).length = 3072 ∧
      (programOutput f1 f2).getD 0 0 = 0x89 ∧
      (programOutput f1 f2).getD 1 0 = 0x00 ∧
      ((programOutput f1 f2).drop 2).take 3072 = denibble (read_file f1) ∧
      (programOutput f1 f2).getD 0xC02 0 = 0xAB ∧
      (programOutput f1 f2).getD 0xC03 0 = 0xCD ∧
      (programOutput f1 f2).drop 0xC04 = denibble (read_file f2) := by
  intro f1 f2 hs1 hl1 hs2 hl2
  have hA : (denibble (read_file f1)).length = 3072 := by
    rw [length_denibble, length_read_file]
  have hB : (denibble (read_file f2)).length = 3072 := by
    rw [length_denibble, length_read_file]
  have hok := runProgram_ok hs1 hl1 hs2 hl2
  have hout : programOutput f1 f2 =
      write_to_file (denibble (read_file f1)) (denibble (read_file f2)) := by
    simp [programOutput, hok]
  refine ⟨hok, ?_, hA, hB, ?_, ?_, ?_, ?_, ?_, ?_⟩
  · rw [hout, length_write_to_file hA hB]
  · rw [hout, write_to_file_cons]
    rfl
  · rw [hout, write_to_file_cons]
    rfl
  · rw [hout, write_bankA hA]
  · rw [hout, write_sep1 hA]
  · rw [hout, write_sep2 hA]
  · rw [hout, write_bankB hA]

theorem claim_C2_witness :
    runProgram (bankASig ++ List.replicate 6356 0) (bankBSig ++ List.replicate 6356 0) =
        .ok (write_to_file (denibble (read_file (bankASig ++ List.replicate 6356 0)))
          (denibble (read_file (bankBSig ++ List.replicate 6356 0)))) ∧
      (programOutput (bankASig ++ List.replicate 6356 0)
        (bankBSig ++ List.replicate 6356 0)).length = 6148 :=
  have h := claim_C2 (bankASig ++ List.replicate 6356 0) (bankBSig ++ List.replicate 6356 0)
    (List.take_left' rfl) (by rw [List.length_append, List.length_replicate]; decide)
    (List.take_left' rfl) (by rw [List.length_append, List.length_replicate]; decide)
  ⟨h.1, h.2.1⟩

/-- C3: for every buffer of even length, the reference in-place transform
(merged byte at `i/2`, zero byte at `i/2 + 1`, then truncation to half
length) produces exactly the pure per-pair map: one merged byte per
original pair, in original order; the zero-writes leave no trace. -/
theorem claim_C3 : ∀ d : List Nat, Even d.length → denibble d = denibPure d :=
  fun d h => denibble_eq_denibPure d h

theorem claim_C3_witness :
    denibble [0x3F, 0xA2, 0x01, 0x02] = denibPure [0x3F, 0xA2, 0x01, 0x02] :=
  claim_C3 [0x3F, 0xA2, 0x01, 0x02] (by decide)

/-- C4: for every validated 6363-byte bank buffer, the extractor produces
exactly 6144 bytes, and byte `128*k + j` of the output (for `k < 48`,
`j < 128`) is byte `0x4C + 131*k + j` of the input — i.e. the output is
the concatenation of the 48 windows of 128 bytes at stride 131, and the 3
bytes between consecutive windows are not retained. -/
theorem claim_C4 : ∀ f : List Nat, f.length = 6363 →
    (read_file f).length = 6144 ∧
    ∀ k j : Nat, k < 48 → j < 128 →
      (read_file f).getD (128 * k + j) 0 = f.getD (0x4C + 131 * k + j) 0 :=
  fun f _ => ⟨length_read_file f, fun k j hk hj => getD_read_file f k j hk hj⟩

theorem claim_C4_witness :
    (read_file (List.replicate 6363 0)).length = 6144 ∧
    (read_file (List.replicate 6363 0)).getD (128 * 47 + 127) 0 =
      (List.replicate 6363 0).getD (0x4C + 131 * 47 + 127) 0 :=
  have h := claim_C4 (List.replicate 6363 0) (by rw [List.length_replicate])
  ⟨h.1, h.2 47 127 (by decide) (by decide)⟩

/-- C5 (code bug evidence): on extracted buffers of different lengths,
`reorganize_data` only reports the mismatch and returns both buffers
untransformed; `main` then proceeds to write a non-empty output file and
exits with status 0, contradicting the claim that the run aborts with a
non-zero status and no output written. -/
theorem claim_C5_bug :
    reorganize_data [0x00, 0x01] [0x00, 0x01, 0x02, 0x03] =
        (([0x00, 0x01], [0x00, 0x01, 0x02, 0x03]), [Diag.lengthMismatch]) ∧
      (mainTail [0x00, 0x01] [0x00, 0x01, 0x02, 0x03]).1 = 0 ∧
      (mainTail [0x00, 0x01] [0x00, 0x01, 0x02, 0x03]).2 =
        [0x89, 0x00, 0x00, 0x01, 0xAB, 0xCD, 0x00, 0x01, 0x02, 0x03] := by
  refine ⟨?_, ?_, ?_⟩ <;> decide

/-- C6 counterexample: on the empty input buffer the very first 128-byte
extraction window (start `0x4C + 131*0`) extends past the end of the
buffer, yet the extractor does not fail with any error — it has no
failure path at all and still produces a full 6144-byte sequence. -/
theorem claim_C6_counterexample :
    ([] : List Nat).length < 0x4C + 131 * 0 + 128 ∧
    (read_file []).length = 6144 :=
  ⟨by decide, length_read_file []⟩

/-- C6 (amended): the extractor performs no bounds check and never fails
(there is no TruncatedRead error in the code); instead, for every
validated 6363-byte input, every one of the 48 extraction windows lies
entirely within bounds, so no out-of-bounds read occurs in the program,
and the extractor returns the full 6144-byte sequence. -/
theorem claim_C6 : ∀ f : List Nat, f.length = 6363 →
    (∀ k : Nat, k < 48 → 0x4C + 131 * k + 128 ≤ f.length) ∧
    (read_file f).length = 6144 :=
  fun f hf => ⟨fun k hk => by omega, length_read_file f⟩

theorem claim_C6_witness :
    0x4C + 131 * 47 + 128 ≤ (List.replicate 6363 (0 : Nat)).length ∧
    (read_file (List.replicate 6363 0)).length = 6144 :=
  have h := claim_C6 (List.replicate 6363 0) (by rw [List.length_replicate])
  ⟨h.1 47 (by decide), h.2⟩

/-- C7: if any single byte among the first 7 of bank file A differs from
the bank A signature, or (with bank A valid) any single byte among the
first 7 of bank file B differs from the bank B signature, validation
fails with the corresponding InvalidSignature error and zero bytes are
written to the output. -/
theorem claim_C7 :
    (∀ (f1 f2 : List Nat) (j : Nat), j < 7 → f1.getD j 0 ≠ bankASig.getD j 0 →
      runProgram f1 f2 = .error RunError.invalidSignature1 ∧
        programOutput f1 f2 = []) ∧
    (∀ (f1 f2 : List Nat) (j : Nat), f1.take 7 = bankASig → f1.length = 6363 →
      j < 7 → f2.getD j 0 ≠ bankBSig.getD j 0 →
      runProgram f1 f2 = .error RunError.invalidSignature2 ∧
        programOutput f1 f2 = []) := by
  constructor
  · intro f1 f2 j hj hne
    have h := @runProgram_sigA_error f1 f2 (take7_ne hj hne)
    exact ⟨h, programOutput_error h⟩
  · intro f1 f2 j hs1 hl1 hj hne
    have h := runProgram_sigB_error hs1 hl1 (take7_ne hj hne)
    exact ⟨h, programOutput_error h⟩

theorem claim_C7_witness :
    runProgram [] [] = .error RunError.invalidSignature1 ∧
    programOutput [] [] = [] :=
  claim_C7.1 [] [] 0 (by decide) (by decide)

/-- C8: an input whose total length is not exactly 6363 bytes (with its
signature intact, e.g. lengths 6362 or 6364) fails validation with an
InvalidLength error carrying the actual length, and no output is
written. -/
theorem claim_C8 :
    (∀ f1 f2 : List Nat, f1.take 7 = bankASig → f1.length ≠ 6363 →
      runProgram f1 f2 = .error (RunError.invalidLength1 f1.length) ∧
        programOutput f1 f2 = []) ∧
    (∀ f1 f2 : List Nat, f1.take 7 = bankASig → f1.length = 6363 →
      f2.take 7 = bankBSig → f2.length ≠ 6363 →
      runProgram f1 f2 = .error (RunError.invalidLength2 f2.length) ∧
        programOutput f1 f2 = []) := by
  constructor
  · intro f1 f2 hs1 hl1
    have h := @runProgram_lenA_error f1 f2 hs1 hl1
    exact ⟨h, programOutput_error h⟩
  · intro f1 f2 hs1 hl1 hs2 hl2
    have h := runProgram_lenB_error hs1 hl1 hs2 hl2
    exact ⟨h, programOutput_error h⟩

theorem claim_C8_witness :
    runProgram (bankASig ++ List.replicate 6355 0) [] =
      .error (RunError.invalidLength1 (bankASig ++ List.replicate 6355 0).length) ∧
    programOutput (bankASig ++ List.replicate 6355 0) [] = [] :=
  claim_C8.1 (bankASig ++ List.replicate 6355 0) [] (List.take_left' rfl)
    (by rw [List.length_append, List.length_replicate]; decide)

/-- C9: on equal-length extracted buffers whose common length is not 6144,
the transcoder emits the non-fatal UnexpectedLength diagnostic but still
performs the nibble-merge transform and truncation on both buffers, and
the run continues to write the output and exit with status 0. -/
theorem claim_C9 : ∀ d1 d2 : List Nat, d1.length = d2.length → d1.length ≠ 6144 →
    reorganize_data d1 d2 = ((denibble d1, denibble d2), [Diag.unexpectedLength]) ∧
    mainTail d1 d2 = (0, write_to_file (denibble d1) (denibble d2)) := by
  intro d1 d2 h hne
  constructor
  · simp only [reorganize_data]
    rw [if_neg (fun hn => hn h), if_pos hne]
  · exact mainTail_eq h

theorem claim_C9_witness :
    reorganize_data [0x3F, 0xA2] [0x3F, 0xA2] =
      ((denibble [0x3F, 0xA2], denibble [0x3F, 0xA2]), [Diag.unexpectedLength]) ∧
    mainTail [0x3F, 0xA2] [0x3F, 0xA2] =
      (0, write_to_file (denibble [0x3F, 0xA2]) (denibble [0x3F, 0xA2])) :=
  claim_C9 [0x3F, 0xA2] [0x3F, 0xA2] rfl (by decide)

/-- C10: on a pair of equal even-length buffers, every index the in-place
transcoding pass accesses is in bounds: the loop instrumented with the
checks `i + 1 < n`, `i/2 < n`, `i/2 + 1 < n` at each iteration never
fails and computes the same result as the uninstrumented loop, on both
buffers. -/
theorem claim_C10 : ∀ d1 d2 : List Nat, d1.length = d2.length → Even d1.length →
    denibLoopChecked d1 0 = some (denibLoop d1 0) ∧
    denibLoopChecked d2 0 = some (denibLoop d2 0) := by
  intro d1 d2 h he
  exact ⟨denibLoopChecked_eq d1 0 he ⟨0, rfl⟩,
    denibLoopChecked_eq d2 0 (h ▸ he) ⟨0, rfl⟩⟩

theorem claim_C10_witness :
    denibLoopChecked [0x3F, 0xA2] 0 = some (denibLoop [0x3F, 0xA2] 0) ∧
    denibLoopChecked [0x01, 0x02] 0 = some (denibLoop [0x01, 0x02] 0) :=
  claim_C10 [0x3F, 0xA2] [0x01, 0x02] rfl (by decide)

end FB2SCI
